import Mathlib

/-!
Verification of the CCS product-collateral crawler
(`ccs_crawler.py` and `validate_outputs.py`).

The development shallowly embeds the pure decision logic of the two
scripts: filename classification (`distribute_file`), the PDF signature
check (`is_pdf`), the completeness validator
(`_required_files_present`), the per-product acquisition loop
(`process_product`), the CAD-archive sanitizer (`clean_zip`), the
suffix-bucket deduplication (`collect_by_suffix`/`remove_duplicates`),
and the post-hoc image check (`validate_product_dir`).

Files are modelled by their observable attributes (name, byte size, the
first four bytes returned by `read(4)`, and an optional parsed zip
listing); the filesystem and the browser-driving layer are modelled as
explicit state and per-attempt oracles.  Python strings are modelled as
Lean strings over their character lists (the repository only ever
manipulates ASCII filenames).
-/

namespace CCS

/-! ## String primitives (Python `startswith`, `endswith`, `in`, `lower`) -/

/-- Whether the first list is an initial segment of the second
(Python `str.startswith` over characters). -/
def firstOf : List Char → List Char → Bool
  | [], _ => true
  | _ :: _, [] => false
  | p :: ps, c :: cs => p == c && firstOf ps cs

/-- Whether the first list occurs contiguously inside the second
(Python `pat in s`). -/
def hasSub : List Char → List Char → Bool
  | pat, [] => pat.isEmpty
  | pat, s@(_ :: cs) => firstOf pat s || hasSub pat cs

/-- Python `pat in s` on strings. -/
def strSub (pat s : String) : Bool := hasSub pat.data s.data

/-- Python `s.startswith(p)`. -/
def strStarts (s p : String) : Bool := firstOf p.data s.data

/-- Python `s.endswith(p)`. -/
def strEnds (s p : String) : Bool := firstOf p.data.reverse s.data.reverse

/-- Python `s.lower()` (the repository only handles ASCII filenames). -/
def lowerStr (s : String) : String := ⟨s.data.map Char.toLower⟩

/-! ## Path primitives (`pathlib.Path.name`, `.suffix`, `str.split`) -/

/-- Split a character list on a separator character; mirrors Python
`str.split(sep)` (always returns at least one group). -/
def splitOnChar (sep : Char) : List Char → List (List Char)
  | [] => [[]]
  | c :: cs =>
    match splitOnChar sep cs with
    | [] => [[]]
    | g :: gs => if c == sep then [] :: g :: gs else (c :: g) :: gs

/-- Python `pathlib.PurePosixPath(s).name` over characters: the last
path component, after dropping empty components and `.` components. -/
def pyNameL (cs : List Char) : List Char :=
  ((splitOnChar '/' cs).filter (fun g => !g.isEmpty && g ≠ ['.'])).getLastD []

/-- Python `pathlib.Path(s).name`. -/
def pyName (s : String) : String := ⟨pyNameL s.data⟩

/-- Split a character list around its last `'.'`: `some (before, after)`
when a dot exists, `none` otherwise. -/
def lastDotSplit : List Char → Option (List Char × List Char)
  | [] => none
  | c :: rest =>
    match lastDotSplit rest with
    | some (b, a) => some (c :: b, a)
    | none => if c == '.' then some ([], rest) else none

/-- Python `pathlib.Path(s).suffix` computed on an already-extracted
final component: the part from the last dot on, unless the dot is the
first or the last character of the component. -/
def sfxOfName (n : List Char) : List Char :=
  match lastDotSplit n with
  | none => []
  | some (before, after) =>
    if before.isEmpty then [] else if after.isEmpty then [] else '.' :: after

/-- Python `pathlib.Path(s).suffix`. -/
def pySuffix (s : String) : String := ⟨sfxOfName (pyNameL s.data)⟩

/-- Python `s.split(".")[0]`: the part of the string before its first
dot (the whole string when it has no dot). -/
def firstDotStem (s : String) : String :=
  ⟨((splitOnChar '.' s.data).headD s.data)⟩

/-! ## Data model: files, directories, zip entries -/

/-- One entry of a zip archive: its member name (possibly containing
directory components) and its byte content. -/
structure ZEntry where
  name : String
  data : List Nat
deriving DecidableEq

/-- A file on disk, by the attributes the scripts observe: its base
name, its byte size (`stat().st_size`), the bytes returned by
`open(...).read(4)` (`[]` models an unreadable or empty file), and the
result of opening it with `zipfile.ZipFile` — `some entries` for a
readable archive, `none` for a file that is not a readable zip. -/
structure MFile where
  name : String
  size : Nat
  head : List Nat
  zip : Option (List ZEntry)
deriving DecidableEq

/-- A per-product output directory `<root>/<code>/`: the directory name
(which equals the product code), its top-level regular files, and the
`Images/` subdirectory (`none` when `Images/` does not exist). -/
structure ProductDir where
  name : String
  files : List MFile
  images : Option (List MFile)
deriving DecidableEq

/-! ## ccs_crawler.py: PDF signature and the download-keyword table -/

/-- The bytes of `b"%PDF"` (`PDF_MAGIC` in both scripts). -/
def PDF_MAGIC : List Nat := [37, 80, 68, 70]

/-- Source `is_pdf`: the first four bytes read from the file equal
`%PDF`; an unreadable file (modelled as `head = []`) is not a PDF. -/
def is_pdf (f : MFile) : Bool := f.head == PDF_MAGIC

/-- One row of `DOWNLOAD_KEYWORDS`: keyword, canonical filename suffix,
target extension. -/
structure KwEntry where
  kw : String
  suffix : String
  ext : String
deriving DecidableEq

/-- Source `DOWNLOAD_KEYWORDS`, in its fixed order. -/
def DOWNLOAD_KEYWORDS : List KwEntry :=
  [⟨"manual", "_Manual", ".pdf"⟩,
   ⟨"catalog", "_Catalog", ".pdf"⟩,
   ⟨"dimension", "_Dimension", ".pdf"⟩,
   ⟨"dimension drawing", "_Dimension", ".pdf"⟩,
   ⟨"dxf", "_DXF", ".zip"⟩,
   ⟨"step", "_STEP", ".zip"⟩,
   ⟨"datasheet", "_Datasheet", ".pdf"⟩,
   ⟨"data sheet", "_Datasheet", ".pdf"⟩]

/-! ## ccs_crawler.py: classification (`distribute_file` selection logic) -/

/-- Source `CCSCrawler._looks_like_dimension(name_lower, context)`:
the stem before the first dot contains "dimension" or "drawing", or it
ends in `_e` and starts with the lower-cased product code. -/
def looks_like_dimension (nameLower code : String) : Bool :=
  let stem := firstDotStem nameLower
  if strSub "dimension" stem || strSub "drawing" stem then true
  else strEnds stem "_e" && strStarts stem (lowerStr code)

/-- The category-selection logic of `CCSCrawler.distribute_file`
(lines 694-711): the first `DOWNLOAD_KEYWORDS` entry whose keyword
occurs in the lower-cased name, then the prefix conventions, the
datasheet substring, the dimension heuristic, the code-with-pdf
fallback, and the bare CAD extension fallback. -/
def classifyEntry (fname code : String) : Option KwEntry :=
  match DOWNLOAD_KEYWORDS.find? (fun e => strSub e.kw (lowerStr fname)) with
  | some e => some e
  | none =>
    if strStarts (lowerStr fname) "c_" then some ⟨"catalog", "_Catalog", ".pdf"⟩
    else if strStarts (lowerStr fname) "d_" then some ⟨"dimension", "_Dimension", ".pdf"⟩
    else if strStarts (lowerStr fname) "m_" && !strSub "datasheet" (lowerStr fname) then
      some ⟨"manual", "_Manual", ".pdf"⟩
    else if strSub "datasheet" (lowerStr fname) || strSub "data-sheet" (lowerStr fname) then
      some ⟨"datasheet", "_Datasheet", ".pdf"⟩
    else if looks_like_dimension (lowerStr fname) code then
      some ⟨"dimension", "_Dimension", ".pdf"⟩
    else if strSub (lowerStr code) (lowerStr fname) && lowerStr (pySuffix fname) == ".pdf" then
      some ⟨"datasheet", "_Datasheet", ".pdf"⟩
    else if lowerStr (pySuffix fname) == ".stp" || lowerStr (pySuffix fname) == ".step" then
      some ⟨"step", "_STEP", ".zip"⟩
    else none

/-- How `distribute_file` materialises its single write: a straight
`shutil.copy` of the raw file, or `shutil.make_archive` over a scratch
directory holding just the raw file (so the archive's one entry keeps
the raw file's name). -/
inductive WriteKind where
  | copy (f : MFile)
  | wrapZip (f : MFile)
deriving DecidableEq

/-- The write `distribute_file` performs into the product directory:
target filename is `code ++ suffix ++ ext`. -/
structure Write where
  suffix : String
  ext : String
  kind : WriteKind
deriving DecidableEq

/-- Source `CCSCrawler.distribute_file` (lines 694-732) as the write it
performs, or `none` when the file is discarded: unclassifiable files
and would-be PDF writes failing the `%PDF` check produce no write; for
zip categories an already-archived raw file (`.zip`/`.gz`/`.rar`) is
copied and a bare file is wrapped into a fresh single-entry zip. -/
def distribute_file (f : MFile) (code : String) : Option Write :=
  match classifyEntry f.name code with
  | none => none
  | some e =>
    if e.ext == ".pdf" && !is_pdf f then none
    else if e.ext == ".zip" then
      if lowerStr (pySuffix f.name) == ".zip" || lowerStr (pySuffix f.name) == ".gz"
          || lowerStr (pySuffix f.name) == ".rar" then
        some ⟨e.suffix, ".zip", .copy f⟩
      else
        some ⟨e.suffix, ".zip", .wrapZip f⟩
    else
      some ⟨e.suffix, e.ext, .copy f⟩

/-- The canonical filename a write lands at (`f"{code}{suffix}{ext}"`;
`shutil.make_archive(base, "zip", ...)` likewise produces
`base + ".zip"`). -/
def targetName (code : String) (w : Write) : String := code ++ w.suffix ++ w.ext

/-- The single entry name of the zip built by the wrap branch of
`distribute_file` (`shutil.make_archive` over a scratch directory that
holds one copy of the raw file under its own name), `none` for a plain
copy. -/
def wrapEntryName (w : Write) : Option String :=
  match w.kind with
  | .wrapZip f => some f.name
  | .copy _ => none

/-! ## ccs_crawler.py: completeness validator (`_required_files_present`) -/

/-- The suffix list iterated by `_required_files_present`
(lines 643-649). -/
def requiredSuffixes : List String :=
  ["_Catalog.pdf", "_Dimension.pdf", "_DXF.zip", "_STEP.zip", "_Manual.pdf"]

/-- The per-suffix body of `_required_files_present` (lines 654-677):
an absent match only passes for the optional `_Manual.pdf` and
`_STEP.zip`; the first matching file must be at least 1000 bytes, pass
`is_pdf` when the suffix is a PDF one, and contain the product code
(the directory name) in its filename.  (Python iterates a name set;
the model checks the first match in directory listing order.) -/
def checkSuffix (d : ProductDir) (s : String) : Bool :=
  match d.files.filter (fun f => strEnds f.name s) with
  | [] => s == "_Manual.pdf" || s == "_STEP.zip"
  | f :: _ =>
    if f.size < 1000 then false
    else if strEnds s ".pdf" && !is_pdf f then false
    else if !strSub d.name f.name then false
    else true

/-- The image clause of `_required_files_present` (lines 680-682):
`Images/` exists and holds a file strictly larger than 1000 bytes. -/
def imagesOk (d : ProductDir) : Bool :=
  match d.images with
  | none => false
  | some imgs => imgs.any (fun f => f.size > 1000)

/-- Source `CCSCrawler._required_files_present` (lines 642-684). -/
def requiredFilesPresent (d : ProductDir) : Bool :=
  requiredSuffixes.all (fun s => checkSuffix d s) && imagesOk d

/-! ## ccs_crawler.py: the per-product acquisition loop (`process_product`)

The browser-driving steps of one attempt are abstracted into an oracle:
for attempt `n`, whether the two `find_product_row` lookups succeed
(lines 322 and 333), and the contents of the destination directory
after that attempt's downloads and `transform_downloads` have run
(lines 327-340).  Image and manual failures are suppressed in the
source (`contextlib.suppress`), so they are absorbed into the resulting
contents. -/

/-- The outcome the external driver produces for one acquisition
attempt. -/
structure AttemptOutcome where
  rowFound : Bool
  rowFound2 : Bool
  contents : ProductDir
deriving DecidableEq

/-- Result of the two-attempt loop (lines 316-344): `aborted n` when a
row lookup failed during attempt `n` (the source then removes the
directory and returns `False`), `done d n` when the loop left the
directory holding `d` after `n` started attempts (via the completeness
`break` or by exhausting `range(2)`). -/
inductive ARes where
  | aborted (started : Nat)
  | done (d : ProductDir) (started : Nat)
deriving DecidableEq

/-- The `for attempt in range(2)` loop of `process_product`
(lines 316-344), with `remaining` counting the attempts left. -/
def runAttempts (env : Nat → AttemptOutcome) : Nat → Nat → ProductDir → ARes
  | 0, started, cur => .done cur started
  | Nat.succ r, started, _ =>
    let o := env started
    if o.rowFound = false then .aborted (started + 1)
    else if o.rowFound2 = false then .aborted (started + 1)
    else if requiredFilesPresent o.contents then .done o.contents (started + 1)
    else runAttempts env r (started + 1) o.contents

/-- Observable result of `process_product`: its return value, the final
state of the product directory (`none` = absent, otherwise its contents
paired with whether the `.complete` marker is present), and how many
acquisition attempts were started. -/
structure PPOut where
  result : Bool
  fs : Option (ProductDir × Bool)
  attempts : Nat
deriving DecidableEq

/-- Lines 316-351 of `process_product`, after the early-exit test: run
the attempt loop, remove the directory and return `False` on a missing
row, otherwise write the `.complete` marker exactly when
`_required_files_present` holds (line 346-350) and return `True`
(line 351).  The source's `cleanup_dest_dir`/`return False` on
lines 352-353 sit after `return True` and are unreachable.  A marker
already present from an earlier run (`m0`) persists, since nothing
deletes it. -/
def processBody (d0 : ProductDir) (m0 : Bool) (env : Nat → AttemptOutcome) : PPOut :=
  match runAttempts env 2 0 d0 with
  | .aborted n => ⟨false, none, n⟩
  | .done d n => ⟨true, some (d, m0 || requiredFilesPresent d), n⟩

/-- Line 314: `ensure_dir(dest_dir / "Images")` creates `Images/` when
missing and leaves it as found otherwise. -/
def ensureImages (d : ProductDir) : ProductDir :=
  { d with images := some (d.images.getD []) }

/-- Source `CCSCrawler.process_product` (lines 309-353).  `fs0` is the
prior state of `<output_root>/<code>` (`none` = the directory does not
exist).  When the directory exists and `--overwrite` is not set, the
source returns `False` before touching anything (lines 310-312);
otherwise it ensures the directory and its `Images/` subdirectory and
runs the attempt loop. -/
def process_product (code : String) (overwrite : Bool)
    (fs0 : Option (ProductDir × Bool)) (env : Nat → AttemptOutcome) : PPOut :=
  match fs0 with
  | some st =>
    if overwrite then processBody (ensureImages st.1) st.2 env
    else ⟨false, some st, 0⟩
  | none => processBody ⟨code, [], some []⟩ false env

/-! ## validate_outputs.py: suffix buckets and deduplication -/

/-- Keys of the `REQUIRED` dict of validate_outputs.py, in insertion
order. -/
def REQUIRED_KEYS : List String :=
  ["_Catalog.pdf", "_Dimension.pdf", "_DXF.zip", "_STEP.zip", "_Manual.pdf",
   "_Datasheet.pdf"]

/-- Keys of the `OPTIONAL` dict of validate_outputs.py, in insertion
order. -/
def OPTIONAL_KEYS : List String := ["_Manual.pdf", "_STEP.zip", "_Datasheet.pdf"]

/-- The suffix a file is bucketed under by `collect_by_suffix`: the
first suffix of `list(REQUIRED) + list(OPTIONAL)` that the name ends
with (the inner loop `break`s after the first hit). -/
def suffixFor (n : String) : Option String :=
  (REQUIRED_KEYS ++ OPTIONAL_KEYS).find? (fun s => strEnds n s)

/-- Append a file to the bucket of `s` in an insertion-ordered
association list (Python `dict.setdefault(s, []).append(p)`). -/
def addToBucket (bs : List (String × List MFile)) (s : String) (f : MFile) :
    List (String × List MFile) :=
  match bs with
  | [] => [(s, [f])]
  | (k, v) :: rest =>
    if k == s then (k, v ++ [f]) :: rest else (k, v) :: addToBucket rest s f

/-- Source `collect_by_suffix` (lines 45-52). -/
def collect_by_suffix (files : List MFile) : List (String × List MFile) :=
  files.foldl
    (fun bs p =>
      match suffixFor p.name with
      | some s => addToBucket bs s p
      | none => bs)
    []

/-- Python `max(paths, key=size)` over a nonempty list presented as
head and tail: the first element attaining the maximal size (later
elements replace the current best only when strictly larger).  The
source's key is `p.stat().st_size if p.exists() else -1`; every
bucketed path comes from the directory listing and exists, so the key
is the size. -/
def pyMaxBySize : MFile → List MFile → MFile
  | cur, [] => cur
  | cur, f :: fs => if f.size > cur.size then pyMaxBySize f fs else pyMaxBySize cur fs

/-- The files `remove_duplicates` unlinks in one bucket (lines 60-67):
everything whose path differs from the kept maximum (`Path` equality is
path-string equality; within one directory that is filename
equality). -/
def bucketRemoved (paths : List MFile) : List MFile :=
  match paths with
  | [] => []
  | p :: ps =>
    let keep := pyMaxBySize p ps
    paths.filter (fun q => !(q.name == keep.name))

/-- Source `remove_duplicates` (lines 55-69): buckets with at most one
file are skipped; for the rest the removed files are reported per
suffix. -/
def remove_duplicates (buckets : List (String × List MFile)) :
    List (String × List MFile) :=
  buckets.filterMap
    (fun b => if b.2.length ≤ 1 then none else some (b.1, bucketRemoved b.2))

/-- The files of a bucket still on disk after `remove_duplicates`
processed it: all of them when the bucket was skipped, otherwise the
ones not unlinked. -/
def bucketSurvivors (paths : List MFile) : List MFile :=
  if paths.length ≤ 1 then paths
  else
    match paths with
    | [] => []
    | p :: ps =>
      let keep := pyMaxBySize p ps
      paths.filter (fun q => q.name == keep.name)

/-! ## validate_outputs.py: the CAD-archive sanitizer (`clean_zip`) -/

/-- The `mode` argument of `clean_zip`. -/
inductive CadMode where
  | dxf
  | step
deriving DecidableEq

/-- Whether a member name's extension matches the mode
(`Path(m).suffix.lower() in target_exts`, line 84). -/
def extMatch (mode : CadMode) (n : String) : Bool :=
  match mode with
  | .dxf => lowerStr (pySuffix n) == ".dxf"
  | .step => lowerStr (pySuffix n) == ".stp" || lowerStr (pySuffix n) == ".step"

/-- Python `zf.read(name)`: the content of the entry with that name
(when names repeat inside an archive, `ZipFile`'s name index keeps the
last occurrence). -/
def readEntry (members : List ZEntry) (n : String) : List Nat :=
  (((members.filter (fun e => e.name == n)).getLast?).map (fun e => e.data)).getD []

/-- Source `clean_zip` (lines 72-103) on an archive state (`none` =
unreadable, raising `BadZipFile` on open): returns the archive's new
state, the `changed` flag, and the `kept` list.  An unreadable archive
and an archive without matching members are left as they are with
`kept = []`; when every member name is in the target set (the
`set(target_members) != set(members)` test on line 89 compares name
sets) nothing is rewritten and `kept` lists the flattened target names;
otherwise the archive is rebuilt from the target members with flattened
names (`Path(m).name`, line 94). -/
def clean_zip (z : Option (List ZEntry)) (mode : CadMode) :
    Option (List ZEntry) × Bool × List String :=
  match z with
  | none => (none, false, [])
  | some members =>
    let tgt := members.filter (fun e => extMatch mode e.name)
    if tgt.isEmpty then (some members, false, [])
    else if members.all (fun m => tgt.any (fun t => t.name == m.name)) then
      (some members, false, tgt.map (fun t => pyName t.name))
    else
      (some (tgt.map (fun t => ⟨pyName t.name, readEntry members t.name⟩)),
       true,
       tgt.map (fun t => pyName t.name))

/-! ## validate_outputs.py: the post-hoc image check -/

/-- Source `IMAGE_EXTS` of validate_outputs.py. -/
def IMAGE_EXTS : List String := [".jpg", ".jpeg", ".png", ".gif", ".webp"]

/-- The `Images/` clause of `validate_product_dir` (lines 169-176):
`Images/` exists and holds a file whose lower-cased extension is an
image extension and whose size is positive. -/
def auditorImagesOk (d : ProductDir) : Bool :=
  match d.images with
  | none => false
  | some imgs =>
    imgs.any (fun f => IMAGE_EXTS.contains (lowerStr (pySuffix f.name)) && f.size > 0)

/-! ## The spec's presentation of classification: an ordered rule list

The spec (§4.1) describes classification as a fixed priority list of
rules with first match winning.  The rules below restate each numbered
rule of the spec; `classifyRules` evaluates them in order.  They are
compared against `classifyEntry`, the direct translation of the
source's conditional chain. -/

/-- Spec rule 1: the first entry of the ordered keyword table whose
keyword occurs in the lower-cased filename. -/
def kwRule (fname : String) : Option KwEntry :=
  DOWNLOAD_KEYWORDS.find? (fun e => strSub e.kw (lowerStr fname))

/-- Spec rule 2: filename conventions, with the `m_` convention
yielding only when the name does not also contain "datasheet". -/
def convRule (fname : String) : Option KwEntry :=
  if strStarts (lowerStr fname) "c_" then some ⟨"catalog", "_Catalog", ".pdf"⟩
  else if strStarts (lowerStr fname) "d_" then some ⟨"dimension", "_Dimension", ".pdf"⟩
  else if strStarts (lowerStr fname) "m_" && !strSub "datasheet" (lowerStr fname) then
    some ⟨"manual", "_Manual", ".pdf"⟩
  else none

/-- Spec rule 3: the substring "datasheet" or "data-sheet". -/
def dsRule (fname : String) : Option KwEntry :=
  if strSub "datasheet" (lowerStr fname) || strSub "data-sheet" (lowerStr fname) then
    some ⟨"datasheet", "_Datasheet", ".pdf"⟩
  else none

/-- Spec rule 4: the dimension-drawing heuristic. -/
def dimRule (fname code : String) : Option KwEntry :=
  if looks_like_dimension (lowerStr fname) code then
    some ⟨"dimension", "_Dimension", ".pdf"⟩
  else none

/-- Spec rule 5: product code in the name together with a `.pdf`
extension. -/
def codePdfRule (fname code : String) : Option KwEntry :=
  if strSub (lowerStr code) (lowerStr fname) && lowerStr (pySuffix fname) == ".pdf" then
    some ⟨"datasheet", "_Datasheet", ".pdf"⟩
  else none

/-- Spec rule 6: a bare CAD extension. -/
def cadExtRule (fname : String) : Option KwEntry :=
  if lowerStr (pySuffix fname) == ".stp" || lowerStr (pySuffix fname) == ".step" then
    some ⟨"step", "_STEP", ".zip"⟩
  else none

/-- The spec's ordered rule list. -/
def ruleList (fname code : String) : List (Option KwEntry) :=
  [kwRule fname, convRule fname, dsRule fname, dimRule fname code,
   codePdfRule fname code, cadExtRule fname]

/-- First match wins. -/
def firstRuleHit : List (Option KwEntry) → Option KwEntry
  | [] => none
  | some e :: _ => some e
  | none :: rest => firstRuleHit rest

/-- The spec's rule-list classifier. -/
def classifyRules (fname code : String) : Option KwEntry :=
  firstRuleHit (ruleList fname code)

/-! ## Claim-side predicates -/

/-- The canonical PDF-category suffixes (`_Catalog.pdf`,
`_Dimension.pdf`, `_Manual.pdf`, `_Datasheet.pdf` slots). -/
def pdfSlots : List String := ["_Catalog", "_Dimension", "_Manual", "_Datasheet"]

/-- Whether a write targets a PDF-category canonical slot
`<code>_Catalog.pdf`, `<code>_Dimension.pdf`, `<code>_Manual.pdf` or
`<code>_Datasheet.pdf`. -/
def isPdfSlot (w : Write) : Bool := w.ext == ".pdf" && pdfSlots.contains w.suffix

/-- The spec's format check for zip categories (§4.5: "non-empty
archive"): the file parses as a zip archive holding at least one
entry.  The crawler's `_required_files_present` performs no such
check; this definition only states the spec's condition. -/
def zipFormatOkSpec (f : MFile) : Bool :=
  match f.zip with
  | some es => !es.isEmpty
  | none => false

/-! ## Concrete instances used by the claims -/

/-- C1: the attempt oracle of a product whose row is found on every
lookup but whose downloads never produce the required files. -/
def c1Dir : ProductDir := ⟨"ABC-100", [], some []⟩

/-- C1: both attempts succeed at the row lookups and leave an empty
directory behind. -/
def c1Env : Nat → AttemptOutcome := fun _ => ⟨true, true, c1Dir⟩

/-- C2: a valid 2000-byte catalog PDF. -/
def c2Catalog : MFile := ⟨"X1_Catalog.pdf", 2000, PDF_MAGIC, none⟩

/-- C2: a valid 1500-byte dimension PDF. -/
def c2Dim : MFile := ⟨"X1_Dimension.pdf", 1500, PDF_MAGIC, none⟩

/-- C2: a 2000-byte `_DXF.zip` that parses as an archive with zero
entries — it fails the spec's "non-empty archive" format check. -/
def c2Dxf : MFile := ⟨"X1_DXF.zip", 2000, [80, 75, 5, 6], some []⟩

/-- C2: a 5000-byte product image. -/
def c2Img : MFile := ⟨"X1.png", 5000, [137, 80, 78, 71], none⟩

/-- C2: a product directory the validator accepts although its DXF
archive is empty. -/
def c2Dir : ProductDir := ⟨"X1", [c2Catalog, c2Dim, c2Dxf], some [c2Img]⟩

/-- C3: an unclassifiable download. -/
def c3File : MFile := ⟨"report.bin", 700, [1, 2, 3, 4], none⟩

/-- C4: a valid catalog PDF download. -/
def c4File : MFile := ⟨"c_light.pdf", 2000, PDF_MAGIC, none⟩

/-- C5: a CAD entry nested inside a directory of the raw archive. -/
def c5A : ZEntry := ⟨"cad/part.dxf", [1, 2]⟩

/-- C5: an incidental non-CAD entry of the raw archive. -/
def c5B : ZEntry := ⟨"readme.txt", [3]⟩

/-- C7: the smaller of two files sharing the `_Catalog.pdf` suffix. -/
def c7Small : MFile := ⟨"X_Catalog.pdf", 500, PDF_MAGIC, none⟩

/-- C7: the larger of two files sharing the `_Catalog.pdf` suffix. -/
def c7Big : MFile := ⟨"X_dup_Catalog.pdf", 3000, PDF_MAGIC, none⟩

/-- C7: a directory listing holding both catalog files. -/
def c7Files : List MFile := [c7Small, c7Big]

/-- C7: the `_Catalog.pdf` bucket those files fall into. -/
def c7Paths : List MFile := [c7Small, c7Big]

/-- C8: the downloaded bare STEP file of spec Scenario D. -/
def c8File : MFile := ⟨"STEP_data.stp", 4000, [1, 2, 3, 4], none⟩

/-- C9: a 5000-byte file in `Images/` without an image extension. -/
def c9Bin : MFile := ⟨"photo.bin", 5000, [], none⟩

/-- C9: a directory whose `Images/` holds only that file. -/
def c9Dir : ProductDir := ⟨"P9", [], some [c9Bin]⟩

/-- C9 witness: a 2000-byte PNG in `Images/`. -/
def c9Png : MFile := ⟨"P9.png", 2000, [137, 80, 78, 71], none⟩

/-- C9 witness: a directory whose `Images/` holds that PNG. -/
def c9PngDir : ProductDir := ⟨"P9", [], some [c9Png]⟩

/-! ## Helper lemmas -/

/-- The source's conditional chain computes exactly the spec's
first-match rule list. -/
theorem classify_eq_rules (fname code : String) :
    classifyEntry fname code = classifyRules fname code := by
  simp only [classifyEntry, classifyRules, ruleList, kwRule, convRule, dsRule,
    dimRule, codePdfRule, cadExtRule]
  cases hk : DOWNLOAD_KEYWORDS.find? (fun e => strSub e.kw (lowerStr fname)) with
  | some e => simp [firstRuleHit]
  | none =>
    cases h1 : strStarts (lowerStr fname) "c_" <;>
    cases h2 : strStarts (lowerStr fname) "d_" <;>
    cases h3 : strStarts (lowerStr fname) "m_" && !strSub "datasheet" (lowerStr fname) <;>
    cases h4 : strSub "datasheet" (lowerStr fname) || strSub "data-sheet" (lowerStr fname) <;>
    cases h5 : looks_like_dimension (lowerStr fname) code <;>
    cases h6 : strSub (lowerStr code) (lowerStr fname) && lowerStr (pySuffix fname) == ".pdf" <;>
    cases h7 : lowerStr (pySuffix fname) == ".stp" || lowerStr (pySuffix fname) == ".step" <;>
    simp [firstRuleHit, h1, h2, h3, h4, h5, h6, h7]

/-- What a passing `checkSuffix` guarantees for a suffix that is not
one of the two optional ones: the first matching file exists, is large
enough, contains the product code, and passes the PDF check when the
suffix is a PDF one. -/
theorem checkSuffix_spec (d : ProductDir) (s : String)
    (hs : (s == "_Manual.pdf" || s == "_STEP.zip") = false)
    (h : checkSuffix d s = true) :
    ∃ f ∈ d.files, strEnds f.name s = true ∧ 1000 ≤ f.size ∧
      strSub d.name f.name = true ∧ (strEnds s ".pdf" = true → is_pdf f = true) := by
  unfold checkSuffix at h
  cases hfl : d.files.filter (fun f => strEnds f.name s) with
  | nil =>
    rw [hfl] at h
    dsimp only at h
    rw [hs] at h
    exact Bool.noConfusion h
  | cons f rest =>
    rw [hfl] at h
    dsimp only at h
    have hmem : f ∈ d.files.filter (fun f => strEnds f.name s) := by
      rw [hfl]; exact List.mem_cons_self f rest
    have hmem' := List.mem_filter.mp hmem
    by_cases h1 : f.size < 1000
    · rw [if_pos h1] at h; exact Bool.noConfusion h
    rw [if_neg h1] at h
    by_cases h2 : (strEnds s ".pdf" && !is_pdf f) = true
    · rw [if_pos h2] at h; exact Bool.noConfusion h
    rw [if_neg h2] at h
    by_cases h3 : (!strSub d.name f.name) = true
    · rw [if_pos h3] at h; exact Bool.noConfusion h
    refine ⟨f, hmem'.1, by simpa using hmem'.2, Nat.le_of_not_lt h1, by simpa using h3, ?_⟩
    intro hp
    by_contra hnp
    have hfalse : is_pdf f = false := by
      cases hb : is_pdf f
      · rfl
      · exact absurd hb hnp
    exact h2 (by rw [hp, hfalse]; rfl)

/-- Splitting never produces an empty group list. -/
theorem splitOnChar_ne_nil (sep : Char) (cs : List Char) : splitOnChar sep cs ≠ [] := by
  induction cs with
  | nil => simp [splitOnChar]
  | cons c cs ih =>
    unfold splitOnChar
    cases hs : splitOnChar sep cs with
    | nil => exact absurd hs ih
    | cons g gs =>
      dsimp only
      by_cases hc : (c == sep) = true
      · rw [if_pos hc]; simp
      · rw [if_neg hc]; simp

/-- No group produced by splitting contains the separator. -/
theorem mem_splitOnChar_no_sep (sep : Char) (cs : List Char) :
    ∀ g ∈ splitOnChar sep cs, sep ∉ g := by
  induction cs with
  | nil =>
    intro g hg
    simp [splitOnChar] at hg
    simp [hg]
  | cons c cs ih =>
    intro g hg
    unfold splitOnChar at hg
    cases hs : splitOnChar sep cs with
    | nil => exact absurd hs (splitOnChar_ne_nil sep cs)
    | cons g0 gs =>
      rw [hs] at hg
      dsimp only at hg
      by_cases hc : (c == sep) = true
      · rw [if_pos hc] at hg
        rcases List.mem_cons.mp hg with rfl | hg'
        · simp
        · exact ih g (by rw [hs]; exact hg')
      · rw [if_neg hc] at hg
        rcases List.mem_cons.mp hg with rfl | hg'
        · intro hmem
          rcases List.mem_cons.mp hmem with heq | hmem'
          · exact hc (by rw [heq]; simp)
          · exact ih g0 (by rw [hs]; exact List.mem_cons_self g0 gs) hmem'
        · exact ih g (by rw [hs]; exact List.mem_cons_of_mem g0 hg')

/-- Splitting a list that does not contain the separator yields the
single group holding the whole list. -/
theorem splitOnChar_no_sep_self (sep : Char) (cs : List Char) (h : sep ∉ cs) :
    splitOnChar sep cs = [cs] := by
  induction cs with
  | nil => rfl
  | cons c cs ih =>
    rw [List.mem_cons, not_or] at h
    obtain ⟨h1, h2⟩ := h
    unfold splitOnChar
    rw [ih h2]
    dsimp only
    rw [if_neg (fun hb => h1 (eq_of_beq hb).symm)]

/-- The defaulted last element of a nonempty list is a member. -/
theorem getLastD_mem {α : Type} (l : List α) (d : α) (h : l ≠ []) : l.getLastD d ∈ l := by
  induction l generalizing d with
  | nil => exact absurd rfl h
  | cons a l ih =>
    rw [List.getLastD_cons]
    cases hl : l with
    | nil => subst hl; simp [List.getLastD]
    | cons b m =>
      subst hl
      exact List.mem_cons_of_mem a (ih a (by simp))

/-- A path's extracted final component is either empty or a plain
component: free of separators, nonempty and not the dot component. -/
theorem pyNameL_cases (cs : List Char) :
    pyNameL cs = [] ∨
    ('/' ∉ pyNameL cs ∧ pyNameL cs ≠ [] ∧ pyNameL cs ≠ ['.']) := by
  unfold pyNameL
  cases hf : (splitOnChar '/' cs).filter (fun g => !g.isEmpty && g ≠ ['.']) with
  | nil => left; rfl
  | cons g gs =>
    right
    have hmem0 : (g :: gs).getLastD [] ∈ g :: gs := getLastD_mem _ _ (by simp)
    have hmem : (g :: gs).getLastD [] ∈
        (splitOnChar '/' cs).filter (fun g => !g.isEmpty && g ≠ ['.']) := by
      rw [hf]; exact hmem0
    have hmem' := List.mem_filter.mp hmem
    rw [Bool.and_eq_true] at hmem'
    refine ⟨mem_splitOnChar_no_sep '/' cs _ hmem'.1, ?_, ?_⟩
    · have h1 := hmem'.2.1
      rw [Bool.not_eq_true'] at h1
      intro hx
      rw [hx] at h1
      simp at h1
    · exact of_decide_eq_true hmem'.2.2

/-- Extracting the final component of a plain component returns it
unchanged. -/
theorem pyNameL_of_plain (g : List Char) (hs : '/' ∉ g) (hne : g ≠ [])
    (hnd : g ≠ ['.']) : pyNameL g = g := by
  unfold pyNameL
  rw [splitOnChar_no_sep_self '/' g hs]
  have hpred : (!g.isEmpty && decide (g ≠ ['.'])) = true := by
    rw [Bool.and_eq_true]
    exact ⟨by simpa [List.isEmpty_iff] using hne, decide_eq_true hnd⟩
  rw [List.filter_cons, if_pos hpred]
  rfl

/-- Final-component extraction is idempotent. -/
theorem pyNameL_idem (cs : List Char) : pyNameL (pyNameL cs) = pyNameL cs := by
  rcases pyNameL_cases cs with h | ⟨hs, hne, hnd⟩
  · rw [h]; rfl
  · exact pyNameL_of_plain _ hs hne hnd

/-- Flattening a member name to its base name does not change its
`pathlib` suffix (`Path.suffix` is computed on the final component). -/
theorem pySuffix_pyName (n : String) : pySuffix (pyName n) = pySuffix n := by
  show (⟨sfxOfName (pyNameL (pyNameL n.data))⟩ : String) = ⟨sfxOfName (pyNameL n.data)⟩
  rw [pyNameL_idem]

/-- Flattening a member name preserves whether its extension matches a
CAD mode. -/
theorem extMatch_pyName (mode : CadMode) (n : String) :
    extMatch mode (pyName n) = extMatch mode n := by
  cases mode <;> simp [extMatch, pySuffix_pyName]

/-- A false Boolean is not true. -/
theorem neq_true_of_false {b : Bool} (h : b = false) : ¬(b = true) := by
  intro hc
  rw [h] at hc
  exact Bool.noConfusion hc

/-- The sanitizer leaves an archive with no matching entry untouched
and keeps nothing. -/
theorem clean_zip_nothing_kept (mode : CadMode) (members : List ZEntry)
    (he : (members.filter (fun e => extMatch mode e.name)).isEmpty = true) :
    clean_zip (some members) mode = (some members, false, []) := by
  unfold clean_zip
  dsimp only
  rw [if_pos he]

/-- The sanitizer does not rewrite an archive all of whose entries
match. -/
theorem clean_zip_all_match (mode : CadMode) (members : List ZEntry)
    (h : ∀ e ∈ members, extMatch mode e.name = true) :
    (clean_zip (some members) mode).1 = some members ∧
    (clean_zip (some members) mode).2.1 = false := by
  unfold clean_zip
  dsimp only
  by_cases he : (members.filter (fun e => extMatch mode e.name)).isEmpty = true
  · rw [if_pos he]
    exact ⟨rfl, rfl⟩
  · rw [if_neg he]
    have hall : (members.all fun m =>
        (members.filter (fun e => extMatch mode e.name)).any fun t => t.name == m.name) = true := by
      rw [List.all_eq_true]
      intro m hm
      rw [List.any_eq_true]
      exact ⟨m, List.mem_filter.mpr ⟨hm, h m hm⟩, by simp⟩
    rw [if_pos hall]
    exact ⟨rfl, rfl⟩

/-- The sanitizer's rebuild case: some but not all entries match. -/
theorem clean_zip_rebuild (mode : CadMode) (members : List ZEntry)
    (he : (members.filter (fun e => extMatch mode e.name)).isEmpty = false)
    (ha : (members.all fun m =>
      (members.filter (fun e => extMatch mode e.name)).any fun t => t.name == m.name) = false) :
    clean_zip (some members) mode =
      (some ((members.filter (fun e => extMatch mode e.name)).map
          (fun t => ⟨pyName t.name, readEntry members t.name⟩)),
       true,
       (members.filter (fun e => extMatch mode e.name)).map (fun t => pyName t.name)) := by
  unfold clean_zip
  dsimp only
  rw [if_neg (neq_true_of_false he), if_neg (neq_true_of_false ha)]

/-- Folding one more file into the buckets. -/
theorem collect_concat (fs : List MFile) (f : MFile) :
    collect_by_suffix (fs ++ [f]) =
      match suffixFor f.name with
      | some s => addToBucket (collect_by_suffix fs) s f
      | none => collect_by_suffix fs := by
  unfold collect_by_suffix
  rw [List.foldl_append]
  rfl

/-- Where an entry of `addToBucket bs s f` comes from: it was already a
bucket, or it is the bucket of `s`, either freshly `[f]` or an existing
bucket with `f` appended. -/
theorem mem_addToBucket (bs : List (String × List MFile)) (s : String) (f : MFile)
    (e : String × List MFile) (h : e ∈ addToBucket bs s f) :
    e ∈ bs ∨ (e.1 = s ∧ (e.2 = [f] ∨ ∃ v, (s, v) ∈ bs ∧ e.2 = v ++ [f])) := by
  induction bs with
  | nil =>
    simp [addToBucket] at h
    subst h
    exact Or.inr ⟨rfl, Or.inl rfl⟩
  | cons b rest ih =>
    obtain ⟨k, v⟩ := b
    unfold addToBucket at h
    by_cases hk : (k == s) = true
    · rw [if_pos hk] at h
      rcases List.mem_cons.mp h with rfl | h'
      · have hks : k = s := eq_of_beq hk
        exact Or.inr ⟨hks, Or.inr ⟨v, by rw [← hks]; exact List.mem_cons_self _ _, rfl⟩⟩
      · exact Or.inl (List.mem_cons_of_mem _ h')
    · rw [if_neg hk] at h
      rcases List.mem_cons.mp h with rfl | h'
      · exact Or.inl (List.mem_cons_self _ _)
      · rcases ih h' with h'' | ⟨h1, h2⟩
        · exact Or.inl (List.mem_cons_of_mem _ h'')
        · refine Or.inr ⟨h1, ?_⟩
          rcases h2 with h2 | ⟨w, hw, he2⟩
          · exact Or.inl h2
          · exact Or.inr ⟨w, List.mem_cons_of_mem _ hw, he2⟩

/-- Every bucket built by `collect_by_suffix` is a sublist of the
directory listing it was built from. -/
theorem bucket_sublist (files : List MFile) :
    ∀ e ∈ collect_by_suffix files, e.2.Sublist files := by
  induction files using List.reverseRecOn with
  | nil => intro e he; simp [collect_by_suffix] at he
  | append_singleton fs f ih =>
    intro e he
    rw [collect_concat] at he
    cases hs : suffixFor f.name with
    | none =>
      rw [hs] at he
      dsimp only at he
      exact (ih e he).trans (List.sublist_append_left fs [f])
    | some s =>
      rw [hs] at he
      dsimp only at he
      rcases mem_addToBucket _ _ _ _ he with h' | ⟨_, h2⟩
      · exact (ih e h').trans (List.sublist_append_left fs [f])
      · rcases h2 with h2 | ⟨v, hv, h2⟩
        · rw [h2]; exact List.sublist_append_right fs [f]
        · rw [h2]
          exact List.Sublist.append (ih (s, v) hv) (List.Sublist.refl [f])

/-- `addToBucket` either keeps the key list or appends the new key at
the end. -/
theorem keys_addToBucket (bs : List (String × List MFile)) (s : String) (f : MFile) :
    (addToBucket bs s f).map Prod.fst =
      if s ∈ bs.map Prod.fst then bs.map Prod.fst else bs.map Prod.fst ++ [s] := by
  induction bs with
  | nil => simp [addToBucket]
  | cons b rest ih =>
    obtain ⟨k, v⟩ := b
    unfold addToBucket
    by_cases hk : (k == s) = true
    · rw [if_pos hk]
      have hks : k = s := eq_of_beq hk
      rw [List.map_cons, List.map_cons]
      rw [if_pos (by rw [hks]; exact List.mem_cons_self _ _)]
    · rw [if_neg hk]
      rw [List.map_cons, List.map_cons, ih]
      have hne : ¬s = k := fun hc => hk (by rw [hc]; simp)
      by_cases hm : s ∈ rest.map Prod.fst
      · rw [if_pos hm, if_pos (List.mem_cons_of_mem _ hm)]
      · rw [if_neg hm, if_neg (by rw [List.mem_cons]; rintro (hc | hc) <;> [exact hne hc; exact hm hc])]
        rfl

/-- The bucket keys of `collect_by_suffix` are distinct. -/
theorem keys_nodup (files : List MFile) :
    ((collect_by_suffix files).map Prod.fst).Nodup := by
  induction files using List.reverseRecOn with
  | nil => simp [collect_by_suffix]
  | append_singleton fs f ih =>
    rw [collect_concat]
    cases hs : suffixFor f.name with
    | none => exact ih
    | some s =>
      dsimp only
      rw [keys_addToBucket]
      by_cases hm : s ∈ (collect_by_suffix fs).map Prod.fst
      · rw [if_pos hm]; exact ih
      · rw [if_neg hm]
        rw [List.nodup_append]
        exact ⟨ih, List.nodup_singleton s, fun a ha hb => hm (by rw [List.mem_singleton.mp hb] at ha; exact ha)⟩

/-- In a list with distinct keys, two entries with the same key are
the same entry. -/
theorem eq_of_mem_keys_nodup {l : List (String × List MFile)}
    (hn : (l.map Prod.fst).Nodup) {a b : String × List MFile}
    (ha : a ∈ l) (hb : b ∈ l) (hf : a.1 = b.1) : a = b := by
  induction l with
  | nil => cases ha
  | cons x rest ih =>
    rw [List.map_cons, List.nodup_cons] at hn
    rcases List.mem_cons.mp ha with rfl | ha' <;> rcases List.mem_cons.mp hb with rfl | hb'
    · rfl
    · exact absurd (by rw [hf]; exact List.mem_map_of_mem Prod.fst hb') hn.1
    · exact absurd (by rw [← hf]; exact List.mem_map_of_mem Prod.fst ha') hn.1
    · exact ih hn.2 ha' hb'

/-- Python's keyed `max` returns its start value or a list member. -/
theorem pyMaxBySize_mem (cur : MFile) (l : List MFile) :
    pyMaxBySize cur l = cur ∨ pyMaxBySize cur l ∈ l := by
  induction l generalizing cur with
  | nil => exact Or.inl rfl
  | cons f fs ih =>
    unfold pyMaxBySize
    by_cases hc : f.size > cur.size
    · rw [if_pos hc]
      rcases ih f with h | h
      · exact Or.inr (by rw [h]; exact List.mem_cons_self _ _)
      · exact Or.inr (List.mem_cons_of_mem _ h)
    · rw [if_neg hc]
      rcases ih cur with h | h
      · exact Or.inl h
      · exact Or.inr (List.mem_cons_of_mem _ h)

/-- Python's keyed `max` dominates its start value and every list
member. -/
theorem pyMaxBySize_ge (cur : MFile) (l : List MFile) :
    cur.size ≤ (pyMaxBySize cur l).size ∧ ∀ q ∈ l, q.size ≤ (pyMaxBySize cur l).size := by
  induction l generalizing cur with
  | nil => exact ⟨Nat.le_refl _, fun q hq => absurd hq (List.not_mem_nil q)⟩
  | cons f fs ih =>
    unfold pyMaxBySize
    by_cases hc : f.size > cur.size
    · rw [if_pos hc]
      obtain ⟨h1, h2⟩ := ih f
      refine ⟨Nat.le_trans (Nat.le_of_lt hc) h1, ?_⟩
      intro q hq
      rcases List.mem_cons.mp hq with rfl | hq'
      · exact h1
      · exact h2 q hq'
    · rw [if_neg hc]
      obtain ⟨h1, h2⟩ := ih cur
      refine ⟨h1, ?_⟩
      intro q hq
      rcases List.mem_cons.mp hq with rfl | hq'
      · exact Nat.le_trans (Nat.le_of_not_lt hc) h1
      · exact h2 q hq'

/-- In a list with distinct names, filtering for a member's name keeps
just that member. -/
theorem filter_name_eq_single (paths : List MFile) (keep : MFile)
    (hk : keep ∈ paths) (hn : (paths.map (fun f => f.name)).Nodup) :
    paths.filter (fun q => q.name == keep.name) = [keep] := by
  induction paths with
  | nil => cases hk
  | cons p ps ih =>
    rw [List.map_cons, List.nodup_cons] at hn
    rcases List.mem_cons.mp hk with rfl | hk'
    · rw [List.filter_cons, if_pos (by simp)]
      have hnone : ∀ q ∈ ps, ¬((fun q => q.name == keep.name) q = true) := by
        intro q hq hc
        exact hn.1 (by rw [← eq_of_beq hc]; exact List.mem_map_of_mem _ hq)
      rw [List.filter_eq_nil_iff.mpr hnone]
    · have hpne : ¬((p.name == keep.name) = true) := by
        intro hc
        exact hn.1 (by rw [eq_of_beq hc]; exact List.mem_map_of_mem _ hk')
      rw [List.filter_cons, if_neg hpne]
      exact ih hk' hn.2

/-! ## Claim theorems -/

/-- C10: for every product whose output directory already exists, when
the overwrite flag is not set `process_product` returns `False`
immediately: the directory's contents and completion marker are left
exactly as they were and no acquisition attempt is started, whatever
the external driver would have produced. -/
theorem C10_skip_existing_no_overwrite (code : String) (d0 : ProductDir) (m0 : Bool)
    (env : Nat → AttemptOutcome) :
    process_product code false (some (d0, m0)) env = ⟨false, some (d0, m0), 0⟩ := rfl

/-- C1: the code diverges from the claim.  For a product whose two
permitted attempts both find the row but end with the completeness
check failing, `process_product` returns `True` (reporting the product
as processed, not failed) and leaves the unmarked product directory on
disk — the `cleanup_dest_dir`/`return False` lines sit after an
unconditional `return True` and are unreachable. -/
theorem C1_two_failed_attempts_leave_directory :
    requiredFilesPresent c1Dir = false ∧
    process_product "ABC-100" false none c1Env = ⟨true, some (c1Dir, false), 2⟩ := by
  decide

/-- C3: the category-selection logic of `distribute_file` equals the
spec's ordered rule list evaluated first-match-first (keyword table,
then prefix conventions, datasheet substring, dimension heuristic,
code-with-pdf fallback, bare CAD extension fallback), and an
unclassifiable file produces no write into the product directory. -/
theorem C3_classification_priority_order (fname code : String) :
    classifyEntry fname code = classifyRules fname code ∧
    ∀ f : MFile, f.name = fname → classifyRules fname code = none →
      distribute_file f code = none := by
  refine ⟨classify_eq_rules fname code, ?_⟩
  intro f hf hnone
  unfold distribute_file
  rw [hf, classify_eq_rules fname code, hnone]

/-- C3 witness: at the concrete unclassifiable name "report.bin" the
two classifiers agree and the file is dropped. -/
theorem C3_witness :
    classifyEntry "report.bin" "QQ" = classifyRules "report.bin" "QQ" ∧
    distribute_file c3File "QQ" = none :=
  ⟨(C3_classification_priority_order "report.bin" "QQ").1,
   (C3_classification_priority_order "report.bin" "QQ").2 c3File rfl (by decide)⟩

/-- C4: a write of `distribute_file` into a PDF-category canonical slot
only happens for a file whose first four read bytes are `%PDF`;
equivalently, a file failing the signature check (including an
unreadable one) is never copied into such a slot. -/
theorem C4_pdf_slot_requires_signature (f : MFile) (code : String) (w : Write)
    (hw : distribute_file f code = some w) (hs : isPdfSlot w = true) :
    is_pdf f = true := by
  unfold distribute_file at hw
  cases he : classifyEntry f.name code with
  | none => rw [he] at hw; exact absurd hw (by simp)
  | some e =>
    rw [he] at hw
    dsimp only at hw
    by_cases h1 : (e.ext == ".pdf" && !is_pdf f) = true
    · rw [if_pos h1] at hw; exact absurd hw (by simp)
    · rw [if_neg h1] at hw
      by_cases h2 : (e.ext == ".zip") = true
      · rw [if_pos h2] at hw
        have hz : w.ext = ".zip" := by
          by_cases h3 : (lowerStr (pySuffix f.name) == ".zip"
              || lowerStr (pySuffix f.name) == ".gz"
              || lowerStr (pySuffix f.name) == ".rar") = true
          · rw [if_pos h3] at hw; cases hw; rfl
          · rw [if_neg h3] at hw; cases hw; rfl
        unfold isPdfSlot at hs
        rw [hz] at hs
        exact absurd hs (by simp)
      · rw [if_neg h2] at hw
        cases hw
        simp only [isPdfSlot] at hs
        rw [Bool.and_eq_true] at hs
        have hpdf : (e.ext == ".pdf") = true := hs.1
        have hni : ¬((!is_pdf f) = true) := by
          intro hb
          exact h1 (by rw [hpdf, hb]; rfl)
        simpa using hni

/-- C4 witness: a valid catalog PDF is written to the `_Catalog` PDF
slot and indeed carries the signature. -/
theorem C4_witness : is_pdf c4File = true :=
  C4_pdf_slot_requires_signature c4File "LX" ⟨"_Catalog", ".pdf", .copy c4File⟩
    (by decide) (by decide)

/-- C8 counterexample: for the download `STEP_data.stp` and product
code "XYZ", the keyword rule (rule 1, keyword "step") fires — not the
bare-CAD-extension fallback — and the produced `XYZ_STEP.zip` wraps the
single entry `STEP_data.stp`, so no write carries an entry named
`data.stp` as the claim states. -/
theorem C8_counterexample :
    kwRule "STEP_data.stp" = some ⟨"step", "_STEP", ".zip"⟩ ∧
    (∃ w, distribute_file c8File "XYZ" = some w ∧
      targetName "XYZ" w = "XYZ_STEP.zip" ∧ wrapEntryName w = some "STEP_data.stp") ∧
    ¬∃ w, distribute_file c8File "XYZ" = some w ∧ wrapEntryName w = some "data.stp" := by
  decide

/-- C8 (amended): `STEP_data.stp` for product code "XYZ" is classified
as STEP by the keyword rule ("step" occurs in the lower-cased name)
and promotion wraps it into the canonical `XYZ_STEP.zip` whose single
entry keeps the raw file's own name, `STEP_data.stp`. -/
theorem C8_step_wrap_amended :
    classifyEntry "STEP_data.stp" "XYZ" = some ⟨"step", "_STEP", ".zip"⟩ ∧
    distribute_file c8File "XYZ" = some ⟨"_STEP", ".zip", .wrapZip c8File⟩ ∧
    targetName "XYZ" ⟨"_STEP", ".zip", .wrapZip c8File⟩ = "XYZ_STEP.zip" ∧
    wrapEntryName ⟨"_STEP", ".zip", .wrapZip c8File⟩ = some "STEP_data.stp" := by
  decide

/-- C2 counterexample: the validator reports complete on a directory
whose required `_DXF.zip` file is a parseable archive with zero
entries, i.e. fails the spec's "non-empty archive" format check for
zip categories — the code performs no archive-content check. -/
theorem C2_counterexample :
    requiredFilesPresent c2Dir = true ∧
    ∃ f ∈ c2Dir.files, strEnds f.name "_DXF.zip" = true ∧ zipFormatOkSpec f = false := by
  decide

/-- C2 (amended): `_required_files_present` returns true only if, for
each required category suffix (`_Catalog.pdf`, `_Dimension.pdf`,
`_DXF.zip`), the directory holds a matching file of at least 1000
bytes whose name contains the product code and which — for the PDF
categories — begins with `%PDF` (zip categories get no
archive-content format check), and `Images/` holds a file larger than
1000 bytes. -/
theorem C2_validator_necessary_conditions (d : ProductDir)
    (h : requiredFilesPresent d = true) :
    (∀ s ∈ (["_Catalog.pdf", "_Dimension.pdf", "_DXF.zip"] : List String),
      ∃ f ∈ d.files, strEnds f.name s = true ∧ 1000 ≤ f.size ∧
        strSub d.name f.name = true ∧ (strEnds s ".pdf" = true → is_pdf f = true)) ∧
    (∃ imgs, d.images = some imgs ∧ ∃ f ∈ imgs, 1000 < f.size) := by
  unfold requiredFilesPresent at h
  rw [Bool.and_eq_true] at h
  obtain ⟨hall, himg⟩ := h
  rw [List.all_eq_true] at hall
  constructor
  · intro s hsmem
    simp only [List.mem_cons, List.mem_singleton] at hsmem
    rcases hsmem with rfl | rfl | rfl | hsmem
    · exact checkSuffix_spec d _ (by decide) (hall _ (by decide))
    · exact checkSuffix_spec d _ (by decide) (hall _ (by decide))
    · exact checkSuffix_spec d _ (by decide) (hall _ (by decide))
    · exact absurd hsmem (List.not_mem_nil s)
  · unfold imagesOk at himg
    cases hi : d.images with
    | none => rw [hi] at himg; exact Bool.noConfusion himg
    | some imgs =>
      rw [hi] at himg
      obtain ⟨f, hf, hp⟩ := List.any_eq_true.mp himg
      exact ⟨imgs, rfl, f, hf, of_decide_eq_true hp⟩

/-- C2 witness: the concrete complete directory satisfies all the
amended necessary conditions. -/
theorem C2_witness :
    (∀ s ∈ (["_Catalog.pdf", "_Dimension.pdf", "_DXF.zip"] : List String),
      ∃ f ∈ c2Dir.files, strEnds f.name s = true ∧ 1000 ≤ f.size ∧
        strSub c2Dir.name f.name = true ∧ (strEnds s ".pdf" = true → is_pdf f = true)) ∧
    (∃ imgs, c2Dir.images = some imgs ∧ ∃ f ∈ imgs, 1000 < f.size) :=
  C2_validator_necessary_conditions c2Dir (by decide)

/-- C5: the sanitizer's case analysis.  An unreadable archive is
reported unchanged with nothing kept and no exception (the model is a
total function); an archive with no matching entry is left untouched
with an empty kept list; an archive all of whose entries match is not
rewritten; otherwise the archive is rebuilt to exactly the matching
entries with flattened names and those names are reported kept with
`changed = true`. -/
theorem C5_clean_zip_cases (mode : CadMode) :
    clean_zip none mode = (none, false, []) ∧
    ∀ members : List ZEntry,
      (members.filter (fun e => extMatch mode e.name) = [] →
        clean_zip (some members) mode = (some members, false, [])) ∧
      ((∀ e ∈ members, extMatch mode e.name = true) →
        (clean_zip (some members) mode).1 = some members ∧
        (clean_zip (some members) mode).2.1 = false) ∧
      (members.filter (fun e => extMatch mode e.name) ≠ [] →
        ¬(∀ e ∈ members, extMatch mode e.name = true) →
        clean_zip (some members) mode =
          (some ((members.filter (fun e => extMatch mode e.name)).map
              (fun t => ⟨pyName t.name, readEntry members t.name⟩)),
           true,
           (members.filter (fun e => extMatch mode e.name)).map (fun t => pyName t.name))) := by
  refine ⟨rfl, fun members => ⟨?_, clean_zip_all_match mode members, ?_⟩⟩
  · intro hnil
    exact clean_zip_nothing_kept mode members (by rw [hnil]; rfl)
  · intro hne hnall
    apply clean_zip_rebuild mode members
    · cases hie : (members.filter (fun e => extMatch mode e.name)).isEmpty with
      | false => rfl
      | true => exact absurd (List.isEmpty_iff.mp hie) hne
    · cases hall : members.all (fun m =>
        (members.filter (fun e => extMatch mode e.name)).any fun t => t.name == m.name) with
      | false => rfl
      | true =>
        exfalso
        apply hnall
        intro e hemem
        have hany := List.all_eq_true.mp hall e hemem
        rw [List.any_eq_true] at hany
        obtain ⟨t, htmem, hbeq⟩ := hany
        have hname : t.name = e.name := by simpa using hbeq
        have hm : extMatch mode t.name = true := (List.mem_filter.mp htmem).2
        rw [hname] at hm
        exact hm

/-- C5 witness: sanitizing a mixed archive (one nested CAD entry, one
readme) rebuilds it to the single flattened CAD entry. -/
theorem C5_witness :
    clean_zip (some [c5A, c5B]) CadMode.dxf =
      (some [⟨"part.dxf", [1, 2]⟩], true, ["part.dxf"]) := by
  have h := ((C5_clean_zip_cases CadMode.dxf).2 [c5A, c5B]).2.2 (by decide) (by decide)
  exact h.trans (by decide)

/-- C6: sanitization is idempotent — a second `clean_zip` on the
archive produced by a first call reports `changed = false` and leaves
the archive exactly as the first call left it, for every archive and
CAD mode. -/
theorem C6_clean_zip_idempotent (z : Option (List ZEntry)) (mode : CadMode) :
    (clean_zip (clean_zip z mode).1 mode).1 = (clean_zip z mode).1 ∧
    (clean_zip (clean_zip z mode).1 mode).2.1 = false := by
  cases z with
  | none => exact ⟨rfl, rfl⟩
  | some members =>
    by_cases he : (members.filter (fun e => extMatch mode e.name)).isEmpty = true
    · rw [clean_zip_nothing_kept mode members he]
      dsimp only
      rw [clean_zip_nothing_kept mode members he]
      exact ⟨rfl, rfl⟩
    · have he' : (members.filter (fun e => extMatch mode e.name)).isEmpty = false :=
        Bool.eq_false_iff.mpr he
      cases hall : members.all (fun m =>
          (members.filter (fun e => extMatch mode e.name)).any fun t => t.name == m.name) with
      | true =>
        have hfix : clean_zip (some members) mode = (some members, false,
            (members.filter (fun e => extMatch mode e.name)).map (fun t => pyName t.name)) := by
          unfold clean_zip
          dsimp only
          rw [if_neg he, if_pos hall]
        rw [hfix]
        dsimp only
        rw [hfix]
        exact ⟨rfl, rfl⟩
      | false =>
        rw [clean_zip_rebuild mode members he' hall]
        dsimp only
        apply clean_zip_all_match
        intro e' he'mem
        rw [List.mem_map] at he'mem
        obtain ⟨t, ht, rfl⟩ := he'mem
        have hm : extMatch mode t.name = true := (List.mem_filter.mp ht).2
        show extMatch mode (pyName t.name) = true
        rw [extMatch_pyName]
        exact hm

/-- C7: over the buckets built by `collect_by_suffix` from a directory
listing with distinct filenames, the deduplication pass keeps exactly
one file per bucket of two or more — a file of maximal byte size — and
reports the removed files per suffix; buckets with at most one file
are skipped and never appear in the report. -/
theorem C7_dedup_keeps_single_largest (files : List MFile)
    (hnd : (files.map (fun f => f.name)).Nodup)
    (s : String) (paths : List MFile)
    (hmem : (s, paths) ∈ collect_by_suffix files) :
    (2 ≤ paths.length →
      ∃ keep, keep ∈ paths ∧
        bucketSurvivors paths = [keep] ∧
        (∀ q ∈ paths, q.size ≤ keep.size) ∧
        (s, paths.filter (fun q => !(q.name == keep.name))) ∈
          remove_duplicates (collect_by_suffix files)) ∧
    (paths.length ≤ 1 →
      bucketSurvivors paths = paths ∧
      ∀ r ∈ remove_duplicates (collect_by_suffix files), r.1 ≠ s) := by
  have hsub : paths.Sublist files := bucket_sublist files (s, paths) hmem
  have hpnd : (paths.map (fun f => f.name)).Nodup := hnd.sublist (hsub.map _)
  constructor
  · intro hlen
    cases hp : paths with
    | nil => rw [hp] at hlen; simp at hlen
    | cons p ps =>
      subst hp
      have hkmem : pyMaxBySize p ps ∈ p :: ps := by
        rcases pyMaxBySize_mem p ps with h | h
        · rw [h]; exact List.mem_cons_self _ _
        · exact List.mem_cons_of_mem _ h
      refine ⟨pyMaxBySize p ps, hkmem, ?_, ?_, ?_⟩
      · unfold bucketSurvivors
        rw [if_neg (by rw [List.length_cons] at hlen ⊢; omega)]
        exact filter_name_eq_single _ _ hkmem hpnd
      · intro q hq
        rcases List.mem_cons.mp hq with rfl | hq'
        · exact (pyMaxBySize_ge q ps).1
        · exact (pyMaxBySize_ge p ps).2 q hq'
      · unfold remove_duplicates
        apply List.mem_filterMap.mpr
        refine ⟨(s, p :: ps), hmem, ?_⟩
        rw [if_neg (by rw [List.length_cons] at hlen ⊢; omega)]
        rfl
  · intro hlen
    constructor
    · unfold bucketSurvivors
      rw [if_pos hlen]
    · intro r hr hrs
      unfold remove_duplicates at hr
      obtain ⟨b, hb, hbr⟩ := List.mem_filterMap.mp hr
      by_cases hbl : b.2.length ≤ 1
      · rw [if_pos hbl] at hbr; exact Option.noConfusion hbr
      · rw [if_neg hbl] at hbr
        have hb1 : b.1 = s := by
          have := congrArg Prod.fst (Option.some.inj hbr)
          rw [← hrs, ← this]
        have hbeq : b = (s, paths) := eq_of_mem_keys_nodup (keys_nodup files) hb hmem hb1
        rw [hbeq] at hbl
        exact hbl hlen

/-- C7 witness: two `_Catalog.pdf` files of 500 and 3000 bytes — the
pass keeps only the 3000-byte one and reports the 500-byte one
removed. -/
theorem C7_witness :
    ∃ keep, keep ∈ c7Paths ∧
      bucketSurvivors c7Paths = [keep] ∧
      (∀ q ∈ c7Paths, q.size ≤ keep.size) ∧
      ("_Catalog.pdf", c7Paths.filter (fun q => !(q.name == keep.name))) ∈
        remove_duplicates (collect_by_suffix c7Files) :=
  (C7_dedup_keeps_single_largest c7Files (by decide) "_Catalog.pdf" c7Paths
    (by decide)).1 (by decide)

/-- C9 counterexample: on a directory whose `Images/` holds one
5000-byte file without an image extension, the acquisition-time
validator's image check accepts while the post-hoc auditor's image
check rejects — the two predicates are not equivalent. -/
theorem C9_counterexample : imagesOk c9Dir = true ∧ auditorImagesOk c9Dir = false := by
  decide

/-- C9 (amended): the auditor's image check is not the same rule as
the validator's — the validator wants any file larger than 1000 bytes,
the auditor an image-extension file of positive size — but both accept
whenever `Images/` holds a file with an image extension that is larger
than 1000 bytes. -/
theorem C9_image_checks_common_case (d : ProductDir) (imgs : List MFile) (f : MFile)
    (hi : d.images = some imgs) (hf : f ∈ imgs)
    (hext : IMAGE_EXTS.contains (lowerStr (pySuffix f.name)) = true)
    (hsz : 1000 < f.size) :
    imagesOk d = true ∧ auditorImagesOk d = true := by
  constructor
  · unfold imagesOk
    rw [hi]
    exact List.any_eq_true.mpr ⟨f, hf, by simpa using hsz⟩
  · unfold auditorImagesOk
    rw [hi]
    refine List.any_eq_true.mpr ⟨f, hf, ?_⟩
    have h0 : 0 < f.size := by omega
    rw [Bool.and_eq_true]
    exact ⟨hext, decide_eq_true h0⟩

/-- C9 witness: a 2000-byte PNG satisfies both image checks. -/
theorem C9_witness : imagesOk c9PngDir = true ∧ auditorImagesOk c9PngDir = true :=
  C9_image_checks_common_case c9PngDir [c9Png] c9Png rfl (by decide) (by decide) (by decide)

end CCS
